import Mathlib

/-!
# Verification of `date_scraper.py`

Shallow embedding of the date-evidence extraction and reconciliation engine of
`date_scraper.py`, together with theorems settling the specification claims.

Modelling conventions:
* A Python `datetime` (timezone-aware) is modelled as an `Int`: the number of
  microseconds since the Unix epoch (1970-01-01T00:00:00Z).  Python compares and
  subtracts aware datetimes by absolute time, which this representation captures
  exactly; the field accessors `.microsecond`, `.hour`, `.minute`, `.second`
  are the UTC fields (all timestamps in the program are normalised to UTC at
  each extractor's boundary).
* `None` is `Option.none`; a fallible call (`datetime(...)` raising
  `ValueError`, `dateutil.parser.parse` raising, `json.loads` raising) is an
  `Except Unit _` value, with `.error ()` standing for the raised exception.
* Python strings are `List Char`; `\s` in the regexes is modelled as the ASCII
  whitespace characters (space, tab, LF, CR, FF, VT), which covers every
  separator the program's inputs use.
* `dateutil.parser.parse` is an external library; it enters the embedding as a
  function parameter `du : List Char → Except Unit Int` (`.error ()` standing
  for its `ParserError`).
-/

namespace DateScraper

/-! ## Calendar arithmetic (model of Python `datetime` construction) -/

def usPerSecond : Int := 1000000
def usPerMinute : Int := 60000000
def usPerDay : Int := 86400000000

def isLeapYear (y : Nat) : Bool :=
  (y % 4 == 0 && y % 100 != 0) || (y % 400 == 0)

def daysInMonth (y m : Nat) : Nat :=
  if m = 2 then (if isLeapYear y then 29 else 28)
  else if m = 4 ∨ m = 6 ∨ m = 9 ∨ m = 11 then 30
  else 31

/-- Days from 1970-01-01 to the civil date `y-m-d` (valid for `1 ≤ m ≤ 12`);
the standard days-from-civil algorithm. -/
def daysSinceEpoch (y m d : Nat) : Int :=
  let y' : Int := (y : Int) - (if m ≤ 2 then 1 else 0)
  let era : Int := (y' - (if y' < 0 then 399 else 0)) / 400
  let yoe : Int := y' - era * 400
  let mp : Int := ((m : Int) + 9) % 12
  let doy : Int := (153 * mp + 2) / 5 + (d : Int) - 1
  let doe : Int := yoe * 365 + yoe / 4 - yoe / 100 + doy
  era * 146097 + doe - 719468

/-- Microseconds since the Unix epoch of the UTC datetime
`y-m-d h:mi:s.us` (no validity checking; the checked constructor is
`mkDatetime`). -/
def utc (y m d h mi s us : Nat) : Int :=
  daysSinceEpoch y m d * usPerDay
    + ((h : Int) * 3600 + (mi : Int) * 60 + (s : Int)) * usPerSecond + (us : Nat)

/-- Model of the Python `datetime(y, m, d, h, mi, s, us, tzinfo=utc)`
constructor: raises `ValueError` (here `.error ()`) unless every field is in
range, otherwise yields the microsecond instant. -/
def mkDatetime (y m d h mi s us : Nat) : Except Unit Int :=
  if 1 ≤ y ∧ y ≤ 9999 ∧ 1 ≤ m ∧ m ≤ 12 ∧ 1 ≤ d ∧ d ≤ daysInMonth y m
      ∧ h ≤ 23 ∧ mi ≤ 59 ∧ s ≤ 59 ∧ us ≤ 999999 then
    .ok (utc y m d h mi s us)
  else
    .error ()

/-- UTC `.microsecond` field of a timestamp. -/
def dtMicrosecond (t : Int) : Int := t.emod usPerSecond

/-- UTC `.second` field of a timestamp. -/
def dtSecond (t : Int) : Int := (t.ediv usPerSecond).emod 60

/-- UTC `.minute` field of a timestamp. -/
def dtMinute (t : Int) : Int := ((t.ediv usPerSecond).ediv 60).emod 60

/-- UTC `.hour` field of a timestamp. -/
def dtHour (t : Int) : Int := ((t.ediv usPerSecond).ediv 3600).emod 24

/-! ## Plausibility filter (`is_plausible_date`, source lines 89–94)

`now` is the current wall-clock time (`datetime.now().astimezone()`),
passed as a parameter to keep the function pure. -/

/-- `datetime(1971, 1, 2, tzinfo=timezone.utc)`: the code's `too_old` bound,
366 days after the Unix epoch. -/
def tooOldBound : Int := 31622400000000

/-- `timedelta(days=365*5)`: the code's forward window added to `now`. -/
def futureWindow : Int := 365 * 5 * usPerDay

/-- Model of `is_plausible_date` (source lines 89–94). -/
def is_plausible_date (now : Int) (date : Option Int) : Bool :=
  match date with
  | none => false
  | some d => decide (tooOldBound < d ∧ d < now + futureWindow)

/-! ## Reconciliation (`min_valid_date`, source lines 97–111) -/

/-- The list comprehension `[d for d in dates if is_plausible_date(d)]`,
with the surviving `Some`s unwrapped (every plausible entry is a `some`). -/
def plausible_dates (now : Int) (dates : List (Option Int)) : List Int :=
  (dates.filter (fun d => is_plausible_date now d)).filterMap id

/-- `d.microsecond != 0`: the predicate building `precise_times` (line 103). -/
def hasMicro (d : Int) : Bool := decide (dtMicrosecond d ≠ 0)

/-- `d.hour != 0 or d.minute != 0 or d.second != 0`: the predicate building
`precise_dates` (line 107). -/
def hasTime (d : Int) : Bool :=
  decide (dtHour d ≠ 0 ∨ dtMinute d ≠ 0 ∨ dtSecond d ≠ 0)

/-- Second precision-override step of `min_valid_date` (source lines 107–109)
followed by the final `return valid_dates[0]` (line 111). -/
def minStep2 (valid_dates : List Int) (m : Int) : Option Int :=
  match (valid_dates.filter hasTime).head? with
  | some p => if p - m < usPerDay then some p else some m
  | none => some m

/-- Body of `min_valid_date` on the already-sorted list `valid_dates`
(source lines 99–111); `valid_dates[0]` is the head `m`. -/
def select_from : List Int → Option Int
  | [] => none
  | m :: rest =>
    match ((m :: rest).filter hasMicro).head? with
    | some p => if p - m < usPerMinute then some p else minStep2 (m :: rest) m
    | none => minStep2 (m :: rest) m

/-- Model of `min_valid_date` (source lines 97–111): sort the plausible
values ascending, then apply the precision-override selection. -/
def min_valid_date (now : Int) (dates : List (Option Int)) : Option Int :=
  select_from (List.insertionSort (· ≤ ·) (plausible_dates now dates))

/-! ## Characterisations of the selection algorithm -/

/-- `m` is a minimal plausible timestamp among the mapping's values. -/
def IsMinValid (now : Int) (dates : List (Option Int)) (m : Int) : Prop :=
  some m ∈ dates ∧ is_plausible_date now (some m) = true ∧
    ∀ x, some x ∈ dates → is_plausible_date now (some x) = true → m ≤ x

/-- `p` is a minimal plausible timestamp satisfying `q` among the mapping's
values. -/
def IsMinSuch (q : Int → Bool) (now : Int) (dates : List (Option Int))
    (p : Int) : Prop :=
  some p ∈ dates ∧ is_plausible_date now (some p) = true ∧ q p = true ∧
    ∀ x, some x ∈ dates → is_plausible_date now (some x) = true →
      q x = true → p ≤ x

lemma head?_min_of_sorted {l : List Int} (hs : l.Sorted (· ≤ ·)) {p : Int}
    (hp : l.head? = some p) : p ∈ l ∧ ∀ x ∈ l, p ≤ x := by
  cases l with
  | nil => simp at hp
  | cons a t =>
    simp only [List.head?_cons, Option.some.injEq] at hp
    subst hp
    refine ⟨List.mem_cons_self _ _, ?_⟩
    intro x hx
    rcases List.mem_cons.mp hx with h | h
    · exact h ▸ le_refl _
    · exact List.rel_of_sorted_cons hs x h

lemma head?_eq_of_sorted_min {l : List Int} (hs : l.Sorted (· ≤ ·)) {p : Int}
    (hmem : p ∈ l) (hmin : ∀ x ∈ l, p ≤ x) : l.head? = some p := by
  cases l with
  | nil => simp at hmem
  | cons a t =>
    have h1 : p ≤ a := hmin a (List.mem_cons_self _ _)
    have h2 : a ≤ p := by
      rcases List.mem_cons.mp hmem with h | h
      · exact h ▸ le_refl _
      · exact List.rel_of_sorted_cons hs p h
    simp [le_antisymm h2 h1]

lemma mem_plausible_dates {now : Int} {dates : List (Option Int)} {x : Int} :
    x ∈ plausible_dates now dates ↔
      some x ∈ dates ∧ is_plausible_date now (some x) = true := by
  unfold plausible_dates
  rw [List.mem_filterMap]
  constructor
  · rintro ⟨o, ho, hox⟩
    rw [List.mem_filter] at ho
    cases o with
    | none => simp at hox
    | some y =>
      have hyx : y = x := by simpa using hox
      subst hyx
      exact ⟨ho.1, ho.2⟩
  · rintro ⟨hmem, hpl⟩
    exact ⟨some x, List.mem_filter.mpr ⟨hmem, hpl⟩, rfl⟩

/-- The head of the sorted plausible list is exactly a minimal plausible
value. -/
lemma sorted_head_eq_of_min {now : Int} {dates : List (Option Int)} {m : Int}
    (h : IsMinValid now dates m) :
    (List.insertionSort (· ≤ ·) (plausible_dates now dates)).head? = some m := by
  apply head?_eq_of_sorted_min (List.sorted_insertionSort _ _)
  · exact (List.perm_insertionSort _ _).mem_iff.mpr
      (mem_plausible_dates.mpr ⟨h.1, h.2.1⟩)
  · intro x hx
    have hxP := (List.perm_insertionSort _ _).mem_iff.mp hx
    have := mem_plausible_dates.mp hxP
    exact h.2.2 x this.1 this.2

lemma sorted_head_min {now : Int} {dates : List (Option Int)} {m : Int}
    (h : (List.insertionSort (· ≤ ·) (plausible_dates now dates)).head?
      = some m) : IsMinValid now dates m := by
  obtain ⟨hmem, hmin⟩ := head?_min_of_sorted (List.sorted_insertionSort _ _) h
  have hP := mem_plausible_dates.mp ((List.perm_insertionSort _ _).mem_iff.mp hmem)
  refine ⟨hP.1, hP.2, ?_⟩
  intro x hx hpl
  exact hmin x ((List.perm_insertionSort _ _).mem_iff.mpr
    (mem_plausible_dates.mpr ⟨hx, hpl⟩))

/-- The head of the `q`-filtered sorted plausible list is exactly a minimal
plausible value satisfying `q`. -/
lemma filter_head_eq_of_min (q : Int → Bool) {now : Int}
    {dates : List (Option Int)} {p : Int} (h : IsMinSuch q now dates p) :
    ((List.insertionSort (· ≤ ·) (plausible_dates now dates)).filter q).head?
      = some p := by
  apply head?_eq_of_sorted_min ((List.sorted_insertionSort _ _).filter q)
  · refine List.mem_filter.mpr ⟨?_, h.2.2.1⟩
    exact (List.perm_insertionSort _ _).mem_iff.mpr
      (mem_plausible_dates.mpr ⟨h.1, h.2.1⟩)
  · intro x hx
    rw [List.mem_filter] at hx
    have hxP := mem_plausible_dates.mp
      ((List.perm_insertionSort _ _).mem_iff.mp hx.1)
    exact h.2.2.2 x hxP.1 hxP.2 hx.2

lemma filter_head_min (q : Int → Bool) {now : Int}
    {dates : List (Option Int)} {p : Int}
    (h : ((List.insertionSort (· ≤ ·) (plausible_dates now dates)).filter
      q).head? = some p) : IsMinSuch q now dates p := by
  obtain ⟨hmem, hmin⟩ :=
    head?_min_of_sorted ((List.sorted_insertionSort _ _).filter q) h
  rw [List.mem_filter] at hmem
  have hP := mem_plausible_dates.mp
    ((List.perm_insertionSort _ _).mem_iff.mp hmem.1)
  refine ⟨hP.1, hP.2, hmem.2, ?_⟩
  intro x hx hpl hq
  exact hmin x (List.mem_filter.mpr ⟨(List.perm_insertionSort _ _).mem_iff.mpr
    (mem_plausible_dates.mpr ⟨hx, hpl⟩), hq⟩)

lemma exists_cons_of_head? {l : List Int} {m : Int} (h : l.head? = some m) :
    ∃ rest, l = m :: rest := by
  cases l with
  | nil => simp at h
  | cons a t =>
    simp only [List.head?_cons, Option.some.injEq] at h
    exact ⟨t, by rw [h]⟩

lemma minStep2_eq_of_min {now m : Int} {dates : List (Option Int)}
    {rest : List Int} {p : Int}
    (hV : List.insertionSort (· ≤ ·) (plausible_dates now dates) = m :: rest)
    (hp : IsMinSuch hasTime now dates p) (hlt : p - m < usPerDay) :
    minStep2 (m :: rest) m = some p := by
  have hft := filter_head_eq_of_min hasTime hp
  rw [hV] at hft
  simp only [minStep2, hft]
  exact if_pos hlt

lemma minStep2_eq_min {now m : Int} {dates : List (Option Int)}
    {rest : List Int}
    (hV : List.insertionSort (· ≤ ·) (plausible_dates now dates) = m :: rest)
    (h2 : ∀ x, some x ∈ dates → is_plausible_date now (some x) = true →
      hasTime x = true → ¬(x - m < usPerDay)) :
    minStep2 (m :: rest) m = some m := by
  rcases hft : ((m :: rest).filter hasTime).head? with - | q
  · simp only [minStep2, hft]
  · have hq := filter_head_min hasTime (p := q) (by rw [hV]; exact hft)
    simp only [minStep2, hft]
    rw [if_neg (h2 q hq.1 hq.2.1 hq.2.2.1)]

/-- Branch 1 of `min_valid_date`: the earliest plausible timestamp with
non-zero microseconds is within one minute of the overall minimum, so it is
selected. -/
lemma select_branch1 {now : Int} {dates : List (Option Int)} {m p : Int}
    (hm : IsMinValid now dates m) (hp : IsMinSuch hasMicro now dates p)
    (hlt : p - m < usPerMinute) : min_valid_date now dates = some p := by
  obtain ⟨rest, hV⟩ := exists_cons_of_head? (sorted_head_eq_of_min hm)
  have hf := filter_head_eq_of_min hasMicro hp
  rw [hV] at hf
  rw [min_valid_date, hV]
  simp only [select_from, hf]
  exact if_pos hlt

/-- Branch 2 of `min_valid_date`: no microsecond-precise plausible timestamp
lies within one minute of the minimum, but the earliest plausible timestamp
with non-midnight time-of-day lies within one day of it. -/
lemma select_branch2 {now : Int} {dates : List (Option Int)} {m p : Int}
    (hm : IsMinValid now dates m)
    (h1 : ∀ x, some x ∈ dates → is_plausible_date now (some x) = true →
      hasMicro x = true → ¬(x - m < usPerMinute))
    (hp : IsMinSuch hasTime now dates p) (hlt : p - m < usPerDay) :
    min_valid_date now dates = some p := by
  obtain ⟨rest, hV⟩ := exists_cons_of_head? (sorted_head_eq_of_min hm)
  rw [min_valid_date, hV]
  rcases hfm : ((m :: rest).filter hasMicro).head? with - | q
  · simp only [select_from, hfm]
    exact minStep2_eq_of_min hV hp hlt
  · have hq := filter_head_min hasMicro (p := q) (by rw [hV]; exact hfm)
    simp only [select_from, hfm]
    rw [if_neg (h1 q hq.1 hq.2.1 hq.2.2.1)]
    exact minStep2_eq_of_min hV hp hlt

/-- Branch 3 of `min_valid_date`: neither precision override applies, so the
minimum itself is selected. -/
lemma select_branch3 {now : Int} {dates : List (Option Int)} {m : Int}
    (hm : IsMinValid now dates m)
    (h1 : ∀ x, some x ∈ dates → is_plausible_date now (some x) = true →
      hasMicro x = true → ¬(x - m < usPerMinute))
    (h2 : ∀ x, some x ∈ dates → is_plausible_date now (some x) = true →
      hasTime x = true → ¬(x - m < usPerDay)) :
    min_valid_date now dates = some m := by
  obtain ⟨rest, hV⟩ := exists_cons_of_head? (sorted_head_eq_of_min hm)
  rw [min_valid_date, hV]
  rcases hfm : ((m :: rest).filter hasMicro).head? with - | q
  · simp only [select_from, hfm]
    exact minStep2_eq_min hV h2
  · have hq := filter_head_min hasMicro (p := q) (by rw [hV]; exact hfm)
    simp only [select_from, hfm]
    rw [if_neg (h1 q hq.1 hq.2.1 hq.2.2.1)]
    exact minStep2_eq_min hV h2

lemma minStep2_cases {valid_dates : List Int} {m t : Int}
    (h : minStep2 valid_dates m = some t) :
    t = m ∨ t ∈ valid_dates.filter hasTime := by
  simp only [minStep2] at h
  split at h
  · rename_i q hft
    split at h
    · have hqt := Option.some.inj h
      rw [← hqt]
      exact Or.inr (List.mem_of_mem_head? (Option.mem_def.mpr hft))
    · exact Or.inl (Option.some.inj h).symm
  · exact Or.inl (Option.some.inj h).symm

lemma select_from_mem {l : List Int} {t : Int} (h : select_from l = some t) :
    t ∈ l := by
  match l with
  | [] => simp [select_from] at h
  | m :: rest =>
    simp only [select_from] at h
    split at h
    · rename_i q hfm
      split at h
      · have hqt := Option.some.inj h
        rw [← hqt]
        exact List.mem_of_mem_filter (List.mem_of_mem_head? (Option.mem_def.mpr hfm))
      · rcases minStep2_cases h with h' | h'
        · rw [h']
          exact List.mem_cons_self _ _
        · exact List.mem_of_mem_filter h'
    · rcases minStep2_cases h with h' | h'
      · rw [h']
        exact List.mem_cons_self _ _
      · exact List.mem_of_mem_filter h'

/-- Whatever `min_valid_date` returns is one of the plausible values. -/
lemma select_mem {now : Int} {dates : List (Option Int)} {t : Int}
    (h : min_valid_date now dates = some t) :
    some t ∈ dates ∧ is_plausible_date now (some t) = true := by
  suffices hP : t ∈ plausible_dates now dates by
    exact mem_plausible_dates.mp hP
  rw [← (List.perm_insertionSort (· ≤ ·) (plausible_dates now dates)).mem_iff]
  exact select_from_mem h

lemma minStep2_isSome (valid_dates : List Int) (m : Int) :
    ∃ y, minStep2 valid_dates m = some y := by
  rcases hft : (valid_dates.filter hasTime).head? with - | q
  · exact ⟨m, by simp only [minStep2, hft]⟩
  · by_cases hc : q - m < usPerDay
    · exact ⟨q, by simp only [minStep2, hft]; exact if_pos hc⟩
    · exact ⟨m, by simp only [minStep2, hft]; exact if_neg hc⟩

lemma select_from_ne_none (m : Int) (rest : List Int) :
    select_from (m :: rest) ≠ none := by
  simp only [select_from]
  split
  · rename_i q hfm
    split
    · simp
    · obtain ⟨y, hy⟩ := minStep2_isSome (m :: rest) m
      rw [hy]
      simp
  · obtain ⟨y, hy⟩ := minStep2_isSome (m :: rest) m
    rw [hy]
    simp

/-- `min_valid_date` is `none` exactly when no value is plausible. -/
lemma select_none_iff {now : Int} {dates : List (Option Int)} :
    min_valid_date now dates = none ↔
      ∀ o ∈ dates, is_plausible_date now o = false := by
  constructor
  · intro h o ho
    rcases hV : List.insertionSort (· ≤ ·) (plausible_dates now dates)
      with - | ⟨a, rest⟩
    · have hP : plausible_dates now dates = [] := by
        have hperm := List.perm_insertionSort (· ≤ ·) (plausible_dates now dates)
        rw [hV] at hperm
        exact (hperm.symm.eq_nil)
      cases o with
      | none => rfl
      | some x =>
        cases hb : is_plausible_date now (some x) with
        | false => rfl
        | true =>
          have hxP : x ∈ plausible_dates now dates :=
            mem_plausible_dates.mpr ⟨ho, hb⟩
          rw [hP] at hxP
          simp at hxP
    · rw [min_valid_date, hV] at h
      exact absurd h (select_from_ne_none a rest)
  · intro h
    have hP : plausible_dates now dates = [] := by
      rw [List.eq_nil_iff_forall_not_mem]
      intro x hx
      have hmem := mem_plausible_dates.mp hx
      rw [h (some x) hmem.1] at hmem
      exact absurd hmem.2 (by simp)
    rw [min_valid_date, hP]
    simp [List.insertionSort, select_from]

lemma minStep2_close {valid_dates : List Int} {m t : Int}
    (h : minStep2 valid_dates m = some t) : t = m ∨ t - m < usPerDay := by
  simp only [minStep2] at h
  split at h
  · rename_i q hft
    split at h
    · rename_i hc
      have hqt := Option.some.inj h
      rw [← hqt]
      exact Or.inr hc
    · exact Or.inl (Option.some.inj h).symm
  · exact Or.inl (Option.some.inj h).symm

lemma select_from_close {m : Int} {rest : List Int} {t : Int}
    (h : select_from (m :: rest) = some t) : t = m ∨ t - m < usPerDay := by
  simp only [select_from] at h
  split at h
  · rename_i q hfm
    split at h
    · rename_i hc
      have hqt := Option.some.inj h
      rw [← hqt]
      refine Or.inr (lt_trans hc ?_)
      unfold usPerMinute usPerDay
      norm_num
    · exact minStep2_close h
  · exact minStep2_close h

end DateScraper

namespace DateScraper

/-! ## Claim theorems about the plausibility filter and reconciliation -/

/-- C3 counterexample: `utc 1970 7 1` lies strictly between epoch + 1 day
(86400000000 µs) and `now + 5 years`, yet `is_plausible_date` rejects it —
the code's lower bound is 1971-01-02, not epoch + 1 day as the claim states. -/
theorem plausibility_epoch_day_counterexample :
    is_plausible_date (utc 2025 10 12 0 0 0 0) (some (utc 1970 7 1 0 0 0 0)) = false
    ∧ (86400000000 : Int) < utc 1970 7 1 0 0 0 0
    ∧ utc 1970 7 1 0 0 0 0 < utc 2025 10 12 0 0 0 0 + futureWindow := by
  decide

/-- C3 (amended): `is_plausible_date` is false for an absent timestamp, false
for every timestamp at or before 1971-01-02T00:00:00Z (the code's fixed lower
bound, one year and one day after the Unix epoch), false for every timestamp
at or beyond `now + 5*365 days`, and true strictly between those bounds; in
particular false for the Unix epoch, true for `now` (whenever `now` is past
the lower bound), and false for `now + 6*365 days`. -/
theorem plausibility_bounds (now t : Int) :
    is_plausible_date now none = false
    ∧ (t ≤ tooOldBound → is_plausible_date now (some t) = false)
    ∧ (now + futureWindow ≤ t → is_plausible_date now (some t) = false)
    ∧ (tooOldBound < t → t < now + futureWindow →
        is_plausible_date now (some t) = true)
    ∧ is_plausible_date now (some 0) = false
    ∧ (tooOldBound < now → is_plausible_date now (some now) = true)
    ∧ is_plausible_date now (some (now + 6 * 365 * usPerDay)) = false := by
  have hb : tooOldBound = 31622400000000 := rfl
  have hw : futureWindow = 157680000000000 := rfl
  have hd : usPerDay = 86400000000 := rfl
  refine ⟨rfl, fun h => ?_, fun h => ?_, fun h1 h2 => ?_, ?_, fun h => ?_, ?_⟩
  all_goals
    simp only [is_plausible_date, decide_eq_false_iff_not, decide_eq_true_eq,
      not_and, not_lt]
  · intro hc
    omega
  · intro hc
    omega
  · exact ⟨h1, h2⟩
  · intro hc
    omega
  · constructor <;> omega
  · intro hc
    omega

theorem plausibility_bounds_witness :
    is_plausible_date (utc 2025 10 12 0 0 0 0) (some (utc 2025 7 24 0 0 0 0)) = true
    ∧ is_plausible_date (utc 2025 10 12 0 0 0 0) (some tooOldBound) = false :=
  ⟨(plausibility_bounds (utc 2025 10 12 0 0 0 0)
      (utc 2025 7 24 0 0 0 0)).2.2.2.1 (by decide) (by decide),
   (plausibility_bounds (utc 2025 10 12 0 0 0 0) tooOldBound).2.1 (by decide)⟩

/-- C1: `select` on the ascending-sorted plausible timestamps with minimum
`m`: if some plausible timestamp with non-zero sub-second component exists
and the earliest such, `p`, is less than 1 minute after `m`, the result is
`p`; otherwise, if some plausible timestamp with non-midnight time-of-day
exists and the earliest such, `p`, is less than 1 day after `m`, the result
is `p`; otherwise the result is `m`.  The two concrete examples of the
specification are also checked. -/
theorem select_precision_override :
    (∀ now dates m p, IsMinValid now dates m →
      IsMinSuch hasMicro now dates p → p - m < usPerMinute →
      min_valid_date now dates = some p)
    ∧ (∀ now dates m p, IsMinValid now dates m →
      (∀ x, some x ∈ dates → is_plausible_date now (some x) = true →
        hasMicro x = true → ¬(x - m < usPerMinute)) →
      IsMinSuch hasTime now dates p → p - m < usPerDay →
      min_valid_date now dates = some p)
    ∧ (∀ now dates m, IsMinValid now dates m →
      (∀ x, some x ∈ dates → is_plausible_date now (some x) = true →
        hasMicro x = true → ¬(x - m < usPerMinute)) →
      (∀ x, some x ∈ dates → is_plausible_date now (some x) = true →
        hasTime x = true → ¬(x - m < usPerDay)) →
      min_valid_date now dates = some m)
    ∧ min_valid_date (utc 2025 10 12 0 0 0 0)
        [some (utc 2025 7 24 19 49 5 0), some (utc 2025 7 24 19 49 5 83000)]
        = some (utc 2025 7 24 19 49 5 83000)
    ∧ min_valid_date (utc 2025 10 12 0 0 0 0)
        [some (utc 2025 7 24 0 0 0 0), some (utc 2025 7 24 23 59 0 0)]
        = some (utc 2025 7 24 23 59 0 0) :=
  ⟨fun _ _ _ _ hm hp hlt => select_branch1 hm hp hlt,
   fun _ _ _ _ hm h1 hp hlt => select_branch2 hm h1 hp hlt,
   fun _ _ _ hm h1 h2 => select_branch3 hm h1 h2,
   by decide, by decide⟩

theorem select_precision_override_witness :
    min_valid_date (utc 2025 10 12 0 0 0 0)
      [some (utc 2025 7 24 19 49 5 0), some (utc 2025 7 24 19 49 5 83000)]
      = some (utc 2025 7 24 19 49 5 83000) :=
  select_precision_override.1 (utc 2025 10 12 0 0 0 0)
    [some (utc 2025 7 24 19 49 5 0), some (utc 2025 7 24 19 49 5 83000)]
    (utc 2025 7 24 19 49 5 0) (utc 2025 7 24 19 49 5 83000)
    ⟨by decide, by decide, by
      intro x hx hpl
      simp only [List.mem_cons, List.not_mem_nil, or_false,
        Option.some.injEq] at hx
      rcases hx with rfl | rfl <;> decide⟩
    ⟨by decide, by decide, by decide, by
      intro x hx hpl hq
      simp only [List.mem_cons, List.not_mem_nil, or_false,
        Option.some.injEq] at hx
      rcases hx with rfl | rfl
      · exact absurd hq (by decide)
      · exact le_refl _⟩
    (by decide)

/-- C6: `select` returns absent exactly when no value of the evidence mapping
passes the plausibility filter, and any returned timestamp is one of the
mapping's values and itself passes the filter. -/
theorem select_absent_and_membership :
    ∀ now (dates : List (Option Int)),
      (min_valid_date now dates = none ↔
        ∀ o ∈ dates, is_plausible_date now o = false)
      ∧ ∀ t, min_valid_date now dates = some t →
          some t ∈ dates ∧ is_plausible_date now (some t) = true :=
  fun _ _ => ⟨select_none_iff, fun _ h => select_mem h⟩

theorem select_absent_and_membership_witness :
    some (utc 2025 7 24 0 0 0 0) ∈ [some (utc 2025 7 24 0 0 0 0)]
    ∧ is_plausible_date (utc 2025 10 12 0 0 0 0)
        (some (utc 2025 7 24 0 0 0 0)) = true :=
  (select_absent_and_membership (utc 2025 10 12 0 0 0 0)
    [some (utc 2025 7 24 0 0 0 0)]).2 (utc 2025 7 24 0 0 0 0) (by decide)

/-- C10: whenever some value is plausible, `select` returns a timestamp `t`
with `m ≤ t` and `t` less than one day after `m`, where `m` is the minimal
plausible value; and whenever the sub-second precision override applies
(a microsecond-precise minimal candidate `p` within one minute of `m`), the
result is within one minute of `m`. -/
theorem select_result_bounds :
    (∀ now (dates : List (Option Int)),
      (∃ o ∈ dates, is_plausible_date now o = true) →
      ∃ t m, min_valid_date now dates = some t ∧ IsMinValid now dates m ∧
        m ≤ t ∧ t - m < usPerDay)
    ∧ (∀ now (dates : List (Option Int)) (m p : Int), IsMinValid now dates m →
      IsMinSuch hasMicro now dates p → p - m < usPerMinute →
      ∃ t, min_valid_date now dates = some t ∧ t - m < usPerMinute) := by
  constructor
  · rintro now dates ⟨o, ho, hpl⟩
    obtain ⟨x, rfl⟩ : ∃ x, o = some x := by
      cases o with
      | none => exact absurd hpl (by simp [is_plausible_date])
      | some x => exact ⟨x, rfl⟩
    have hxP : x ∈ plausible_dates now dates := mem_plausible_dates.mpr ⟨ho, hpl⟩
    rcases hV : List.insertionSort (· ≤ ·) (plausible_dates now dates)
      with - | ⟨m, rest⟩
    · have := (List.perm_insertionSort (· ≤ ·)
        (plausible_dates now dates)).mem_iff.mpr hxP
      rw [hV] at this
      simp at this
    · have hmin : IsMinValid now dates m := sorted_head_min (by rw [hV]; rfl)
      rcases hres : select_from (m :: rest) with - | t
      · exact absurd hres (select_from_ne_none m rest)
      · refine ⟨t, m, by rw [min_valid_date, hV]; exact hres, hmin, ?_, ?_⟩
        · have htV : t ∈ m :: rest := select_from_mem hres
          have htP : t ∈ plausible_dates now dates :=
            (List.perm_insertionSort (· ≤ ·)
              (plausible_dates now dates)).mem_iff.mp (by rw [hV]; exact htV)
          have ht := mem_plausible_dates.mp htP
          exact hmin.2.2 t ht.1 ht.2
        · rcases select_from_close hres with rfl | hlt
          · unfold usPerDay
            omega
          · exact hlt
  · intro now dates m p hm hp hlt
    exact ⟨p, select_branch1 hm hp hlt, hlt⟩

theorem select_result_bounds_witness :
    ∃ t m, min_valid_date (utc 2025 10 12 0 0 0 0)
        [some (utc 2025 7 24 0 0 0 0)] = some t
      ∧ IsMinValid (utc 2025 10 12 0 0 0 0) [some (utc 2025 7 24 0 0 0 0)] m
      ∧ m ≤ t ∧ t - m < usPerDay :=
  select_result_bounds.1 (utc 2025 10 12 0 0 0 0)
    [some (utc 2025 7 24 0 0 0 0)]
    ⟨some (utc 2025 7 24 0 0 0 0), by decide, by decide⟩

/-! ## Candidate parser: `parse_date_from_timestamp` (source lines 114–132)

The regexes are modelled over `List Char`.  `\w` is modelled as ASCII
alphanumeric or underscore (no input of the program uses non-ASCII word
characters). -/

/-- A word character for the purpose of the `\b` boundary assertions. -/
def isWordChar (c : Char) : Bool := c.isAlphanum || c = '_'

def digitVal (c : Char) : Nat := c.toNat - 48

def digitsToNat (l : List Char) : Nat :=
  l.foldl (fun acc c => 10 * acc + digitVal c) 0

/-- `run` matches `1\d{n-1}`: exactly `n` digits, the first being `1`. -/
def isRunN (n : Nat) (run : List Char) : Bool :=
  decide (run.length = n) && (run.head? == some '1')
    && run.all (fun c => c.isDigit)

/-- `\b` holds between a digit and the following characters. -/
def boundaryAfter : List Char → Bool
  | [] => true
  | c :: _ => !(isWordChar c)

/-- Attempt to match `1\d{n-1}\b` exactly at the current position. -/
def matchRunAt (n : Nat) (l : List Char) : Option Nat :=
  if isRunN n (l.take n) && boundaryAfter (l.drop n) then
    some (digitsToNat (l.take n))
  else
    none

/-- `re.search` for `\b1\d{n-1}\b`: scan positions left to right; `prevW`
records whether the previous character is a word character (for the leading
`\b`). -/
def findRun (n : Nat) : List Char → Bool → Option Nat
  | [], prevW => if prevW then none else matchRunAt n []
  | c :: rest, prevW =>
    match (if prevW then none else matchRunAt n (c :: rest)) with
    | some v => some v
    | none => findRun n rest (isWordChar c)

/-- Model of `parse_date_from_timestamp` (source lines 114–132): a matched
13-digit run is a millisecond epoch timestamp, otherwise a matched 10-digit
run is a second epoch timestamp; `fromtimestamp(...).astimezone(utc)` yields
the corresponding UTC instant. -/
def parse_date_from_timestamp (s : List Char) : Option Int :=
  match findRun 13 s false with
  | some n => some ((n : Int) * 1000)
  | none =>
    match findRun 10 s false with
    | some n => some ((n : Int) * 1000000)
    | none => none

/-- Declarative reading of "the string contains a `\b`-delimited `n`-digit
run starting with 1". -/
def HasRun (n : Nat) (s : List Char) : Prop :=
  ∃ pre run post, s = pre ++ run ++ post ∧ isRunN n run = true
    ∧ boundaryAfter post = true
    ∧ (if pre = [] then True
       else ∃ c, pre.getLast? = some c ∧ isWordChar c = false)

lemma matchRunAt_isSome_iff {n : Nat} {l : List Char} :
    (matchRunAt n l).isSome = true ↔
      ∃ run post, l = run ++ post ∧ isRunN n run = true
        ∧ boundaryAfter post = true := by
  unfold matchRunAt
  constructor
  · intro h
    split at h
    · rename_i hc
      rw [Bool.and_eq_true] at hc
      exact ⟨l.take n, l.drop n, (List.take_append_drop n l).symm, hc.1, hc.2⟩
    · simp at h
  · rintro ⟨run, post, rfl, hrun, hpost⟩
    have hlen : run.length = n := by
      have := hrun
      unfold isRunN at this
      rw [Bool.and_eq_true, Bool.and_eq_true] at this
      exact of_decide_eq_true this.1.1
    rw [List.take_left' hlen, List.drop_left' hlen, hrun, hpost]
    simp

lemma findRun_isSome_iff (n : Nat) :
    ∀ (s : List Char) (prevW : Bool),
      (findRun n s prevW).isSome = true ↔
        ∃ pre run post, s = pre ++ run ++ post ∧ isRunN n run = true
          ∧ boundaryAfter post = true
          ∧ (if pre = [] then prevW = false
             else ∃ c, pre.getLast? = some c ∧ isWordChar c = false)
  | [], prevW => by
    constructor
    · intro h
      unfold findRun at h
      split at h
      · simp at h
      · rename_i hw
        rw [matchRunAt_isSome_iff] at h
        obtain ⟨run, post, heq, hrun, hpost⟩ := h
        exact ⟨[], run, post, by simp [heq], hrun, hpost, by
          simp only [if_pos rfl]
          exact Bool.not_eq_true _ ▸ (by simpa using hw)⟩
    · rintro ⟨pre, run, post, heq, hrun, hpost, hpre⟩
      obtain ⟨h1, hpost0⟩ := List.append_eq_nil.mp heq.symm
      obtain ⟨hpre0, hrun0⟩ := List.append_eq_nil.mp h1
      rw [hrun0] at hrun
      unfold isRunN at hrun
      simp at hrun
  | c :: rest, prevW => by
    unfold findRun
    constructor
    · intro h
      split at h
      · rename_i v hv
        have hm : (matchRunAt n (c :: rest)).isSome = true := by
          cases hw : prevW
          · rw [hw] at hv
            simp only [if_neg Bool.false_ne_true] at hv
            rw [hv]
            rfl
          · rw [hw] at hv
            simp at hv
        have hw : prevW = false := by
          cases hw : prevW
          · rfl
          · rw [hw] at hv
            simp at hv
        rw [matchRunAt_isSome_iff] at hm
        obtain ⟨run, post, heq, hrun, hpost⟩ := hm
        exact ⟨[], run, post, by simpa using heq, hrun, hpost, by
          simp only [if_pos rfl]
          exact hw⟩
      · rename_i hv
        have hrec := (findRun_isSome_iff n rest (isWordChar c)).mp h
        obtain ⟨pre, run, post, heq, hrun, hpost, hpre⟩ := hrec
        refine ⟨c :: pre, run, post, by simp [heq], hrun, hpost, ?_⟩
        rw [if_neg (by simp : ¬(c :: pre = []))]
        cases hp : pre with
        | nil =>
          rw [hp, if_pos rfl] at hpre
          exact ⟨c, by simp [hp], by simpa using hpre⟩
        | cons a t =>
          rw [hp, if_neg (by simp)] at hpre
          obtain ⟨d, hd, hdw⟩ := hpre
          exact ⟨d, by rw [List.getLast?_cons_cons]; exact hd, hdw⟩
    · rintro ⟨pre, run, post, heq, hrun, hpost, hpre⟩
      cases hp : pre with
      | nil =>
        rw [hp] at heq hpre
        rw [if_pos rfl] at hpre
        have hm : (matchRunAt n (c :: rest)).isSome = true :=
          matchRunAt_isSome_iff.mpr ⟨run, post, by simpa using heq, hrun, hpost⟩
        rw [hpre]
        simp only [if_neg Bool.false_ne_true]
        obtain ⟨v, hv⟩ := Option.isSome_iff_exists.mp hm
        rw [hv]
        rfl
      | cons a t =>
        rw [hp] at heq hpre
        have hca : c = a ∧ rest = t ++ (run ++ post) := by
          simpa using heq
        obtain ⟨rfl, hrest⟩ := hca
        have hrec : (findRun n rest (isWordChar c)).isSome = true := by
          rw [findRun_isSome_iff n rest (isWordChar c)]
          refine ⟨t, run, post, by rw [List.append_assoc]; exact hrest,
            hrun, hpost, ?_⟩
          cases ht : t with
          | nil =>
            rw [if_pos rfl]
            rw [if_neg (by simp), ht] at hpre
            obtain ⟨d, hd, hdw⟩ := hpre
            have had : c = d := by simpa using hd
            rw [had]
            exact hdw
          | cons b u =>
            rw [if_neg (by simp)]
            rw [if_neg (by simp), ht] at hpre
            obtain ⟨d, hd, hdw⟩ := hpre
            rw [List.getLast?_cons_cons] at hd
            exact ⟨d, hd, hdw⟩
        split
        · rfl
        · exact hrec

lemma hasRun_iff_isSome {n : Nat} {s : List Char} :
    HasRun n s ↔ (findRun n s false).isSome = true := by
  rw [findRun_isSome_iff]
  unfold HasRun
  constructor
  · rintro ⟨pre, run, post, heq, hrun, hpost, hpre⟩
    refine ⟨pre, run, post, heq, hrun, hpost, ?_⟩
    split
    · rfl
    · rename_i hne
      rw [if_neg hne] at hpre
      exact hpre
  · rintro ⟨pre, run, post, heq, hrun, hpost, hpre⟩
    refine ⟨pre, run, post, heq, hrun, hpost, ?_⟩
    split
    · trivial
    · rename_i hne
      rw [if_neg hne] at hpre
      exact hpre

lemma findRun_eq_none_iff {n : Nat} {s : List Char} :
    findRun n s false = none ↔ ¬ HasRun n s := by
  rw [hasRun_iff_isSome]
  cases h : findRun n s false <;> simp

/-- C7: the epoch-timestamp parser prefers a `\b`-delimited 13-digit run
starting with `1` (interpreted as milliseconds since the epoch), falling
back to a 10-digit run (seconds since the epoch) only when no 13-digit run
exists; it yields a value exactly when one of the two patterns occurs, and
the specification's two concrete examples evaluate as claimed. -/
theorem epoch_timestamp_parse :
    (∀ s : List Char, (∃ v, parse_date_from_timestamp s = some v) ↔
        (HasRun 13 s ∨ HasRun 10 s))
    ∧ (∀ s n, findRun 13 s false = some n →
        parse_date_from_timestamp s = some ((n : Int) * 1000))
    ∧ (∀ s n, findRun 13 s false = none → findRun 10 s false = some n →
        parse_date_from_timestamp s = some ((n : Int) * 1000000))
    ∧ (∀ s, ¬ HasRun 13 s → ¬ HasRun 10 s →
        parse_date_from_timestamp s = none)
    ∧ parse_date_from_timestamp ("x 1753386545083 y".toList)
        = some (utc 2025 7 24 19 49 5 83000)
    ∧ parse_date_from_timestamp ("x 1753386545 y".toList)
        = some (utc 2025 7 24 19 49 5 0) := by
  refine ⟨?_, ?_, ?_, ?_, by decide, by decide⟩
  · intro s
    rcases h13 : findRun 13 s false with - | v13
    · rcases h10 : findRun 10 s false with - | v10
      · constructor
        · rintro ⟨v, hv⟩
          unfold parse_date_from_timestamp at hv
          rw [h13, h10] at hv
          exact absurd hv (by simp)
        · rintro (h | h)
          · rw [hasRun_iff_isSome, h13] at h
            exact absurd h (by simp)
          · rw [hasRun_iff_isSome, h10] at h
            exact absurd h (by simp)
      · constructor
        · intro _
          right
          rw [hasRun_iff_isSome, h10]
          rfl
        · intro _
          refine ⟨(v10 : Int) * 1000000, ?_⟩
          unfold parse_date_from_timestamp
          rw [h13, h10]
    · constructor
      · intro _
        left
        rw [hasRun_iff_isSome, h13]
        rfl
      · intro _
        refine ⟨(v13 : Int) * 1000, ?_⟩
        unfold parse_date_from_timestamp
        rw [h13]
  · intro s n h
    unfold parse_date_from_timestamp
    rw [h]
  · intro s n h13 h10
    unfold parse_date_from_timestamp
    rw [h13, h10]
  · intro s h13 h10
    unfold parse_date_from_timestamp
    rw [findRun_eq_none_iff.mpr h13, findRun_eq_none_iff.mpr h10]

theorem epoch_timestamp_parse_witness :
    parse_date_from_timestamp ("a 1753386545083 b".toList)
      = some ((1753386545083 : Int) * 1000) :=
  epoch_timestamp_parse.2.1 ("a 1753386545083 b".toList) 1753386545083
    (by decide)

/-! ## Candidate parser: `parse_date_from_uuid` (source lines 135–145) -/

def isHexChar (c : Char) : Bool :=
  c.isDigit || (decide ('a' ≤ c) && decide (c ≤ 'f'))
    || (decide ('A' ≤ c) && decide (c ≤ 'F'))

def hexVal (c : Char) : Nat :=
  if c.isDigit then c.toNat - 48
  else if decide ('a' ≤ c) && decide (c ≤ 'f') then c.toNat - 87
  else c.toNat - 55

def hexToNat (l : List Char) : Nat :=
  l.foldl (fun acc c => 16 * acc + hexVal c) 0

def isDashChar (c : Char) : Bool := c = '-'

/-- The version nibble of the regex: `[1-5]`. -/
def isVersionChar (c : Char) : Bool :=
  c = '1' || c = '2' || c = '3' || c = '4' || c = '5'

/-- The variant nibble of the regex: `[89ab]` under `(?i:...)`. -/
def isVariantChar (c : Char) : Bool :=
  c = '8' || c = '9' || c = 'a' || c = 'b' || c = 'A' || c = 'B'

/-- The character classes of
`[0-9a-f]{8}-[0-9a-f]{4}-[1-5][0-9a-f]{3}-[89ab][0-9a-f]{3}-[0-9a-f]{12}`
(case-insensitive), position by position. -/
def uuidPattern : List (Char → Bool) :=
  List.replicate 8 isHexChar ++ [isDashChar] ++ List.replicate 4 isHexChar
    ++ [isDashChar] ++ [isVersionChar] ++ List.replicate 3 isHexChar
    ++ [isDashChar] ++ [isVariantChar] ++ List.replicate 3 isHexChar
    ++ [isDashChar] ++ List.replicate 12 isHexChar

def matchesPattern : List (Char → Bool) → List Char → Bool
  | [], _ => true
  | _ :: _, [] => false
  | p :: ps, c :: cs => p c && matchesPattern ps cs

/-- Attempt to match the UUID regex at the current position, yielding the
version nibble and the 60-bit time field
`(time_hi_version & 0x0fff) << 48 | time_mid << 32 | time_low`
exactly as the `uuid.UUID.time` property computes it. -/
def matchUuidAt (l : List Char) : Option (Nat × Nat) :=
  if matchesPattern uuidPattern l then
    some (hexToNat ((l.drop 14).take 1),
      hexToNat ((l.drop 15).take 3) * 2 ^ 48
        + hexToNat ((l.drop 9).take 4) * 2 ^ 32 + hexToNat (l.take 8))
  else
    none

/-- `re.search` for the UUID regex: leftmost match. -/
def findUuid : List Char → Option (Nat × Nat)
  | [] => none
  | c :: rest =>
    match matchUuidAt (c :: rest) with
    | some r => some r
    | none => findUuid rest

/-- Model of `parse_date_from_uuid` (source lines 135–145).  The conversion
`(id.time - 0x01b21dd213814000) * 100 / 1e9` goes through binary floating
point in the code; it is modelled at microsecond precision by exact integer
scaling of the 100-nanosecond tick count (truncating the sub-microsecond
remainder). -/
def parse_date_from_uuid (s : List Char) : Option Int :=
  match findUuid s with
  | some (v, time) =>
    if v = 1 then some (((time : Int) - 0x01b21dd213814000) / 10) else none
  | none => none

lemma matchesPattern_get :
    ∀ (ps : List (Char → Bool)) (l : List Char),
      matchesPattern ps l = true → ∀ i (h : i < ps.length),
        ∃ c, l.get? i = some c ∧ ps.get ⟨i, h⟩ c = true
  | [], l, hm, i, h => absurd h (by simp)
  | p :: ps, [], hm, i, h => by simp [matchesPattern] at hm
  | p :: ps, c :: cs, hm, 0, h => by
    rw [matchesPattern, Bool.and_eq_true] at hm
    exact ⟨c, rfl, hm.1⟩
  | p :: ps, c :: cs, hm, i + 1, h => by
    rw [matchesPattern, Bool.and_eq_true] at hm
    have hlt : i < ps.length := by simpa using h
    obtain ⟨d, hd, hp⟩ := matchesPattern_get ps cs hm.2 i hlt
    exact ⟨d, hd, hp⟩

/-- The version component of any successful UUID match lies in `1..5`. -/
lemma findUuid_version_range :
    ∀ {s : List Char} {v time : Nat}, findUuid s = some (v, time) →
      1 ≤ v ∧ v ≤ 5 := by
  intro s
  induction s with
  | nil => intro v time h; simp [findUuid] at h
  | cons c rest ih =>
    intro v time h
    rw [findUuid] at h
    rcases hm : matchUuidAt (c :: rest) with - | r
    · rw [hm] at h
      exact ih h
    · rw [hm] at h
      have hr : r = (v, time) := by simpa using h
      unfold matchUuidAt at hm
      split at hm
      · rename_i hpat
        obtain ⟨d, hd, hdv⟩ := matchesPattern_get uuidPattern (c :: rest) hpat
          14 (by decide)
        have hdver : isVersionChar d = true := hdv
        have hdrop : (c :: rest).drop 14 = d :: ((c :: rest).drop 15) := by
          have h14 : 14 < (c :: rest).length := by
            by_contra hlen
            rw [List.get?_eq_none.mpr (by omega)] at hd
            exact absurd hd (by simp)
          rw [List.drop_eq_get_cons h14]
          have : (c :: rest).get ⟨14, h14⟩ = d := by
            have := List.get?_eq_get h14
            rw [this] at hd
            exact Option.some.inj hd
          rw [this]
        have hv : v = hexVal d := by
          have hinj := Option.some.inj hm
          rw [hr] at hinj
          have hfst := congrArg Prod.fst hinj
          simp only at hfst
          rw [← hfst, hdrop]
          simp [hexToNat]
        simp only [isVersionChar, Bool.or_eq_true, decide_eq_true_eq] at hdver
        rcases hdver with ((((h1 | h1) | h1) | h1) | h1) <;> subst h1 <;> rw [hv]
          <;> exact ⟨by decide, by decide⟩
      · exact absurd hm (by simp)

/-- C8: the UUID parser yields a timestamp only for a matched UUID whose
version nibble (guaranteed in `1..5` by the regex) equals 1, in which case
the timestamp is the 60-bit time field minus `0x01B21DD213814000`, scaled
from 100-nanosecond ticks to seconds since the Unix epoch (modelled at
microsecond precision); versions 2–5 yield no date.  The concrete v1 UUID of
the repository's test decodes to 2025-07-24T19:16:20.580182Z (the code's
floating-point path reports 580183 µs, off by the sub-microsecond float
error from the exactly scaled value). -/
theorem uuid_v1_parse :
    (∀ s v time, findUuid s = some (v, time) → v ≠ 1 →
        parse_date_from_uuid s = none)
    ∧ (∀ s time, findUuid s = some (1, time) →
        parse_date_from_uuid s
          = some (((time : Int) - 0x01b21dd213814000) / 10))
    ∧ (∀ s, findUuid s = none → parse_date_from_uuid s = none)
    ∧ (∀ s v time, findUuid s = some (v, time) → 1 ≤ v ∧ v ≤ 5)
    ∧ parse_date_from_uuid
        ("abc ae4e6160-68c2-11f0-b558-1800200c9a66 xyz".toList)
        = some (utc 2025 7 24 19 16 20 580182)
    ∧ parse_date_from_uuid
        ("abc ae4e6160-68c2-41f0-b558-1800200c9a66 xyz".toList) = none := by
  refine ⟨?_, ?_, ?_, ?_, by decide, by decide⟩
  · intro s v time h hne
    unfold parse_date_from_uuid
    rw [h]
    exact if_neg hne
  · intro s time h
    unfold parse_date_from_uuid
    rw [h]
    exact if_pos rfl
  · intro s h
    unfold parse_date_from_uuid
    rw [h]
  · exact fun s v time h => findUuid_version_range h

theorem uuid_v1_parse_witness :
    parse_date_from_uuid ("ae4e6160-68c2-11f0-b558-1800200c9a66".toList)
      = some (((0x1f068c2ae4e6160 : Int) - 0x01b21dd213814000) / 10) :=
  uuid_v1_parse.2.1 ("ae4e6160-68c2-11f0-b558-1800200c9a66".toList)
    0x1f068c2ae4e6160 (by decide)

/-! ## Candidate parser: `parse_date_from_text` (source lines 148–184)

Structured regex: `(?:\(|^)((?:19|20)\d{2}(?:[-\s.:/]\d{1,2}){0,5})(?:\)|$|\.)`
with Python backtracking semantics (greedy repetition, two-digit field
preferred, leftmost match).  Fallback regex: `\b(?:19|20)\d{2}[-\d./]*\b`
whose match is handed to `dateutil.parser.parse` (the parameter `du`; its
`ParserError` is the only exception the code catches there). -/

/-- `[-\s.:/]`: the field separators of the structured pattern (ASCII `\s`). -/
def isSepChar (c : Char) : Bool :=
  c = ' ' || c = '\t' || c = '\n' || c = '\r' || c = '\x0b' || c = '\x0c'
    || c = '.' || c = ':' || c = '/' || c = '-'

/-- `(?:\)|$|\.)`: the closing context of the structured pattern. -/
def closerOk : List Char → Bool
  | [] => true
  | c :: _ => c = ')' || c = '.'

/-- `(?:19|20)\d{2}`: four year digits, returned with the rest of the
input. -/
def matchYear : List Char → Option (List Char × List Char)
  | c1 :: c2 :: c3 :: c4 :: rest =>
    if ((c1 = '1' ∧ c2 = '9') ∨ (c1 = '2' ∧ c2 = '0')) ∧ c3.isDigit = true
        ∧ c4.isDigit = true then
      some ([c1, c2, c3, c4], rest)
    else
      none
  | _ => none

/-- `(?:[-\s.:/]\d{1,2}){0,5}` followed by the closing context, with
backtracking: each repetition prefers two digits, the loop prefers more
repetitions and gives them up from the last one backwards.  Accumulates the
numeric value of each digit group (the effect of
`map(int, re.split(r"\D", match[1]))` on the captured fields). -/
def matchReps : Nat → List Char → List Nat → Option (List Nat)
  | 0, l, acc => if closerOk l then some acc.reverse else none
  | n + 1, l, acc =>
    match l with
    | c :: d1 :: rest1 =>
      if isSepChar c = true ∧ d1.isDigit = true then
        match rest1 with
        | d2 :: rest2 =>
          if d2.isDigit then
            match matchReps n rest2 ((10 * digitVal d1 + digitVal d2) :: acc) with
            | some r => some r
            | none =>
              match matchReps n rest1 (digitVal d1 :: acc) with
              | some r => some r
              | none => if closerOk l then some acc.reverse else none
          else
            match matchReps n rest1 (digitVal d1 :: acc) with
            | some r => some r
            | none => if closerOk l then some acc.reverse else none
        | [] =>
          match matchReps n [] (digitVal d1 :: acc) with
          | some r => some r
          | none => if closerOk l then some acc.reverse else none
      else if closerOk l then some acc.reverse else none
    | _ => if closerOk l then some acc.reverse else none

/-- One attempt of the capture group at the current position. -/
def matchGroup (l : List Char) : Option (List Nat) :=
  match matchYear l with
  | some (yc, rest) =>
    match matchReps 5 rest [] with
    | some fields => some (digitsToNat yc :: fields)
    | none => none
  | none => none

/-- `re.search` of the structured pattern: at each position the `\(`
alternative is tried first, the `^` alternative only at the very start. -/
def structSearch : List Char → Bool → Option (List Nat)
  | [], _ => none
  | c :: rest, atStart =>
    match (if c = '(' then
        match matchGroup rest with
        | some r => some r
        | none => if atStart then matchGroup (c :: rest) else none
      else if atStart then matchGroup (c :: rest) else none) with
    | some r => some r
    | none => structSearch rest false

/-- `[-\d./]`: the run characters of the fallback pattern. -/
def fuzzyClassChar (c : Char) : Bool :=
  c.isDigit || c = '.' || c = '/' || c = '-'

/-- The trailing `\b` of the fallback pattern: `lastWord` tells whether the
last matched character is a word character. -/
def boundaryEndOk (lastWord : Bool) (rest : List Char) : Bool :=
  match rest with
  | [] => lastWord
  | c :: _ => lastWord != isWordChar c

/-- Backtracking of the greedy `[-\d./]*` run against the trailing `\b`:
give back characters from the end until the boundary holds. -/
def shrinkRun (yc : List Char) : List Char → List Char → Option (List Char)
  | [], after => if boundaryEndOk true after then some yc else none
  | c :: runRev, after =>
    if boundaryEndOk (isWordChar c) after then
      some (yc ++ (c :: runRev).reverse)
    else
      shrinkRun yc runRev (c :: after)

/-- One attempt of the fallback pattern at the current position, returning
the matched text. -/
def fuzzyAt (l : List Char) : Option (List Char) :=
  match matchYear l with
  | some (yc, rest) =>
    shrinkRun yc (rest.takeWhile fuzzyClassChar).reverse
      (rest.dropWhile fuzzyClassChar)
  | none => none

/-- `re.search` of the fallback pattern `\b(?:19|20)\d{2}[-\d./]*\b`. -/
def fuzzySearch : List Char → Bool → Option (List Char)
  | [], _ => none
  | c :: rest, prevW =>
    match (if prevW then none else fuzzyAt (c :: rest)) with
    | some r => some r
    | none => fuzzySearch rest (isWordChar c)

/-- The fallback branch of `parse_date_from_text` (source lines 166–174):
hand the matched text to `dateutil.parser.parse`, keep the result only if
plausible, silently swallow its `ParserError`. -/
def textFallback (du : List Char → Except Unit Int) (now : Int)
    (text : List Char) : Except Unit (Option Int) :=
  match fuzzySearch text false with
  | some mstr =>
    match du mstr with
    | .ok d => if is_plausible_date now (some d) then .ok (some d) else .ok none
    | .error _ => .ok none
  | none => .ok none

/-- Model of `parse_date_from_text` (source lines 148–184): dispatch on the
number of captured numeric fields; 6 → full date-time, 3 → date, 2 → first
of next month minus one day, 1 → first of next year minus one day; any other
count (0, 4, 5 fields or no structured match) falls back to the fuzzy
branch.  `datetime(...)` errors (`.error ()`) propagate uncaught. -/
def parse_date_from_text (du : List Char → Except Unit Int) (now : Int)
    (text : List Char) : Except Unit (Option Int) :=
  match structSearch text true with
  | some fields =>
    match fields with
    | [y, mo, d, h, mi, s] => do
      let t ← mkDatetime y mo d h mi s 0
      pure (some t)
    | [y, mo, d] => do
      let t ← mkDatetime y mo d 0 0 0 0
      pure (some t)
    | [y, mo] => do
      let t ← mkDatetime y (mo + 1) 1 0 0 0 0
      pure (some (t - usPerDay))
    | [y] => do
      let t ← mkDatetime (y + 1) 1 1 0 0 0 0
      pure (some (t - usPerDay))
    | _ => textFallback du now text
  | none => textFallback du now text

lemma char_digit_bounds {c : Char} (h : c.isDigit = true) :
    48 ≤ c.toNat ∧ c.toNat ≤ 57 := by
  unfold Char.isDigit at h
  rw [Bool.and_eq_true, decide_eq_true_eq, decide_eq_true_eq] at h
  have h1 : (48 : UInt32).toNat ≤ c.val.toNat := h.1
  have h2 : c.val.toNat ≤ (57 : UInt32).toNat := h.2
  have e1 : (48 : UInt32).toNat = 48 := rfl
  have e2 : (57 : UInt32).toNat = 57 := rfl
  unfold Char.toNat
  omega

lemma digitVal_le_nine {c : Char} (h : c.isDigit = true) : digitVal c ≤ 9 := by
  have := char_digit_bounds h
  unfold digitVal
  omega

/-- The year captured by `(?:19|20)\d{2}` lies in `1900..2099`. -/
lemma matchYear_range {l yc rest : List Char}
    (h : matchYear l = some (yc, rest)) :
    1900 ≤ digitsToNat yc ∧ digitsToNat yc ≤ 2099 := by
  match l with
  | [] => simp [matchYear] at h
  | [c1] => simp [matchYear] at h
  | [c1, c2] => simp [matchYear] at h
  | [c1, c2, c3] => simp [matchYear] at h
  | c1 :: c2 :: c3 :: c4 :: rest' =>
    rw [matchYear] at h
    split at h
    · rename_i hcond
      obtain ⟨hy, h3, h4⟩ := hcond
      have hinj := Option.some.inj h
      have hyc : yc = [c1, c2, c3, c4] := (congrArg Prod.fst hinj).symm
      have hv3 := digitVal_le_nine h3
      have hv4 := digitVal_le_nine h4
      rcases hy with ⟨rfl, rfl⟩ | ⟨rfl, rfl⟩ <;>
      · rw [hyc]
        simp only [digitsToNat, List.foldl_cons, List.foldl_nil]
        have e1 : digitVal '1' = 1 := by decide
        have e9 : digitVal '9' = 9 := by decide
        have e2 : digitVal '2' = 2 := by decide
        have e0 : digitVal '0' = 0 := by decide
        omega
    · exact absurd h (by simp)

lemma matchGroup_range {l : List Char} {y : Nat} {fs : List Nat}
    (h : matchGroup l = some (y :: fs)) : 1900 ≤ y ∧ y ≤ 2099 := by
  unfold matchGroup at h
  split at h
  · rename_i yc rest hmy
    split at h
    · rename_i fields hmr
      have hinj := Option.some.inj h
      have hy : digitsToNat yc = y := by
        have := congrArg List.head? hinj
        simpa using this
      rw [← hy]
      exact matchYear_range hmy
    · exact absurd h (by simp)
  · exact absurd h (by simp)

/-- Any structured match starts with a year in `1900..2099`. -/
lemma structSearch_range :
    ∀ {l : List Char} {b : Bool} {y : Nat} {fs : List Nat},
      structSearch l b = some (y :: fs) → 1900 ≤ y ∧ y ≤ 2099
  | [], b, y, fs, h => absurd h (by simp [structSearch])
  | c :: rest, b, y, fs, h => by
    rw [structSearch] at h
    split at h
    · rename_i r hr
      have hreq : r = y :: fs := Option.some.inj h
      subst hreq
      by_cases hc : c = '('
      · rw [if_pos hc] at hr
        rcases hmg : matchGroup rest with - | r'
        · rw [hmg] at hr
          have hr' : (if b = true then matchGroup (c :: rest) else none)
              = some (y :: fs) := hr
          by_cases hb : b = true
          · rw [if_pos hb] at hr'
            exact matchGroup_range hr'
          · rw [if_neg hb] at hr'
            exact absurd hr' (by simp)
        · rw [hmg] at hr
          have hre : r' = y :: fs := Option.some.inj hr
          rw [hre] at hmg
          exact matchGroup_range hmg
      · rw [if_neg hc] at hr
        have hr' : (if b = true then matchGroup (c :: rest) else none)
            = some (y :: fs) := hr
        by_cases hb : b = true
        · rw [if_pos hb] at hr'
          exact matchGroup_range hr'
        · rw [if_neg hb] at hr'
          exact absurd hr' (by simp)
    · exact structSearch_range h

lemma one_le_daysInMonth (y m : Nat) : 1 ≤ daysInMonth y m := by
  unfold daysInMonth
  split_ifs <;> omega

lemma mkDatetime_ok (y m d h mi s us : Nat) (hy1 : 1 ≤ y) (hy2 : y ≤ 9999)
    (hm1 : 1 ≤ m) (hm2 : m ≤ 12) (hd1 : 1 ≤ d) (hd2 : d ≤ daysInMonth y m)
    (hh : h ≤ 23) (hmi : mi ≤ 59) (hs : s ≤ 59) (hus : us ≤ 999999) :
    mkDatetime y m d h mi s us = .ok (utc y m d h mi s us) := by
  unfold mkDatetime
  rw [if_pos]
  exact ⟨hy1, hy2, hm1, hm2, hd1, hd2, hh, hmi, hs, hus⟩

/-- The first of the next month, one day earlier, is the last day of this
month (for months January through November). -/
lemma daysSinceEpoch_next_month (y mo : Nat) (h1 : 1900 ≤ y) (h2 : y ≤ 2099)
    (hm1 : 1 ≤ mo) (hm2 : mo ≤ 11) :
    daysSinceEpoch y (mo + 1) 1 - 1 = daysSinceEpoch y mo (daysInMonth y mo) := by
  interval_cases mo <;>
  · simp only [daysSinceEpoch, daysInMonth, isLeapYear, Bool.or_eq_true,
      Bool.and_eq_true, beq_iff_eq, bne_iff_ne]
    norm_num
    split_ifs <;> omega

/-- January first of the next year, one day earlier, is December 31. -/
lemma daysSinceEpoch_next_year (y : Nat) (h1 : 1900 ≤ y) (h2 : y ≤ 2099) :
    daysSinceEpoch (y + 1) 1 1 - 1 = daysSinceEpoch y 12 31 := by
  simp only [daysSinceEpoch]
  norm_num
  split_ifs <;> omega

lemma utc_next_month_sub_day (y mo : Nat) (h1 : 1900 ≤ y) (h2 : y ≤ 2099)
    (hm1 : 1 ≤ mo) (hm2 : mo ≤ 11) :
    utc y (mo + 1) 1 0 0 0 0 - usPerDay = utc y mo (daysInMonth y mo) 0 0 0 0 := by
  have hd := daysSinceEpoch_next_month y mo h1 h2 hm1 hm2
  unfold utc usPerDay usPerSecond
  push_cast
  omega

lemma utc_next_year_sub_day (y : Nat) (h1 : 1900 ≤ y) (h2 : y ≤ 2099) :
    utc (y + 1) 1 1 0 0 0 0 - usPerDay = utc y 12 31 0 0 0 0 := by
  have hd := daysSinceEpoch_next_year y h1 h2
  unfold utc usPerDay usPerSecond
  push_cast
  omega

/-- C2 (code bug for December): a structured match with fields year+month is
normalised to the last day of that month (at midnight UTC) for months
January through November, and a single year field to December 31 of that
year; but a year+month match with month 12 makes the code construct
`datetime(y, 13, 1)`, which raises `ValueError` instead of returning
December 31 — contradicting the code's own comment "mark as the last day of
the month".  The three spec examples hold; `"(2025-12)"` raises. -/
theorem text_structured_parse :
    (∀ du now text y mo d, structSearch text true = some [y, mo, d] →
        1 ≤ mo → mo ≤ 12 → 1 ≤ d → d ≤ daysInMonth y mo →
        parse_date_from_text du now text = .ok (some (utc y mo d 0 0 0 0)))
    ∧ (∀ du now text y mo, structSearch text true = some [y, mo] →
        1 ≤ mo → mo ≤ 11 →
        parse_date_from_text du now text
          = .ok (some (utc y mo (daysInMonth y mo) 0 0 0 0)))
    ∧ (∀ du now text y, structSearch text true = some [y] →
        parse_date_from_text du now text = .ok (some (utc y 12 31 0 0 0 0)))
    ∧ (∀ du now text y, structSearch text true = some [y, 12] →
        parse_date_from_text du now text = .error ())
    ∧ (∀ (text : List Char) b y fs, structSearch text b = some (y :: fs) →
        1900 ≤ y ∧ y ≤ 2099)
    ∧ (∀ du now, parse_date_from_text du now ("(2025-02-03)".toList)
        = .ok (some (utc 2025 2 3 0 0 0 0)))
    ∧ (∀ du now, parse_date_from_text du now ("(2025-02)".toList)
        = .ok (some (utc 2025 2 28 0 0 0 0)))
    ∧ (∀ du now, parse_date_from_text du now ("(2025)".toList)
        = .ok (some (utc 2025 12 31 0 0 0 0)))
    ∧ (∀ du now, parse_date_from_text du now ("(2025-12)".toList)
        = .error ()) := by
  refine ⟨?_, ?_, ?_, ?_, fun text b y fs h => structSearch_range h,
    ?_, ?_, ?_, ?_⟩
  · intro du now text y mo d hss hm1 hm2 hd1 hd2
    obtain ⟨hy1, hy2⟩ := structSearch_range hss
    unfold parse_date_from_text
    rw [hss]
    have hmk := mkDatetime_ok y mo d 0 0 0 0 (by omega) (by omega) hm1 hm2
      hd1 hd2 (by omega) (by omega) (by omega) (by omega)
    show (do
      let t ← mkDatetime y mo d 0 0 0 0
      pure (some t) : Except Unit (Option Int)) = _
    rw [hmk]
    rfl
  · intro du now text y mo hss hm1 hm2
    obtain ⟨hy1, hy2⟩ := structSearch_range hss
    unfold parse_date_from_text
    rw [hss]
    have hmk := mkDatetime_ok y (mo + 1) 1 0 0 0 0 (by omega) (by omega)
      (by omega) (by omega) (by omega) (one_le_daysInMonth y (mo + 1))
      (by omega) (by omega) (by omega) (by omega)
    show (do
      let t ← mkDatetime y (mo + 1) 1 0 0 0 0
      pure (some (t - usPerDay)) : Except Unit (Option Int)) = _
    rw [hmk]
    have hcal := utc_next_month_sub_day y mo hy1 hy2 hm1 hm2
    show Except.ok (some (utc y (mo + 1) 1 0 0 0 0 - usPerDay)) = _
    rw [hcal]
  · intro du now text y hss
    obtain ⟨hy1, hy2⟩ := structSearch_range hss
    unfold parse_date_from_text
    rw [hss]
    have hmk := mkDatetime_ok (y + 1) 1 1 0 0 0 0 (by omega) (by omega)
      (by omega) (by omega) (by omega) (one_le_daysInMonth (y + 1) 1)
      (by omega) (by omega) (by omega) (by omega)
    show (do
      let t ← mkDatetime (y + 1) 1 1 0 0 0 0
      pure (some (t - usPerDay)) : Except Unit (Option Int)) = _
    rw [hmk]
    have hcal := utc_next_year_sub_day y hy1 hy2
    show Except.ok (some (utc (y + 1) 1 1 0 0 0 0 - usPerDay)) = _
    rw [hcal]
  · intro du now text y hss
    unfold parse_date_from_text
    rw [hss]
    have hmk : mkDatetime y 13 1 0 0 0 0 = .error () := by
      unfold mkDatetime
      rw [if_neg]
      intro hcon
      omega
    show (do
      let t ← mkDatetime y (12 + 1) 1 0 0 0 0
      pure (some (t - usPerDay)) : Except Unit (Option Int)) = .error ()
    rw [show (12 + 1 : Nat) = 13 from rfl, hmk]
    rfl
  · intro du now
    unfold parse_date_from_text
    rw [show structSearch ("(2025-02-03)".toList) true = some [2025, 2, 3]
      by decide]
    rfl
  · intro du now
    unfold parse_date_from_text
    rw [show structSearch ("(2025-02)".toList) true = some [2025, 2] by decide]
    rfl
  · intro du now
    unfold parse_date_from_text
    rw [show structSearch ("(2025)".toList) true = some [2025] by decide]
    rfl
  · intro du now
    unfold parse_date_from_text
    rw [show structSearch ("(2025-12)".toList) true = some [2025, 12] by decide]
    rfl

theorem text_structured_parse_witness :
    parse_date_from_text (fun _ => Except.error ()) 0 ("(2025-07)".toList)
      = .ok (some (utc 2025 7 (daysInMonth 2025 7) 0 0 0 0)) :=
  text_structured_parse.2.1 (fun _ => Except.error ()) 0
    ("(2025-07)".toList) 2025 7 (by decide) (by decide) (by decide)

/-! ## Evidence extractors (source lines 187–307)

Host-tool interaction enters the embedding as parameters: a `Bool` for each
`shutil.which` availability check, and the tool's (already decoded) output.
`json.loads ∘ ffprobe` is an `Except Unit MediaMetadata` so that malformed
probe output models the `json.loads` raise.  Evidence mappings are
association lists `List (String × Option Int)` merged with Python
`dict.update` semantics. -/

/-- Model of `get_dates_from_filename` for one name: apply the three
candidate parsers in order, inserting an entry only when a parser produced a
date (`if date is not None`).  The text parser's `ValueError` (December bug)
propagates uncaught. -/
def filenameEntries (du : List Char → Except Unit Int) (now : Int)
    (nameType : String) (name : List Char) :
    Except Unit (List (String × Option Int)) := do
  let l1 := match parse_date_from_timestamp name with
    | some d => [("Timestamp in " ++ nameType, some d)]
    | none => []
  let l2 := match parse_date_from_uuid name with
    | some d => [("UUID in " ++ nameType, some d)]
    | none => []
  let r ← parse_date_from_text du now name
  let l3 := match r with
    | some d => [("Date in " ++ nameType, some d)]
    | none => []
  pure (l1 ++ l2 ++ l3)

/-- Model of `get_dates_from_filename` (source lines 187–204): stem of the
file name, then the containing directory name. -/
def get_dates_from_filename (du : List Char → Except Unit Int) (now : Int)
    (stem folder : List Char) : Except Unit (List (String × Option Int)) := do
  let a ← filenameEntries du now "Filename" stem
  let b ← filenameEntries du now "Folder name" folder
  pure (a ++ b)

/-- The `os.stat` timestamps of a file (microseconds since epoch, UTC). -/
structure FsTimes where
  atime : Int
  mtime : Int
  ctime : Int
deriving DecidableEq

/-- Model of `get_dates_from_filesystem` (source lines 207–217):
atime/mtime/ctime always; `GetFileInfo` output additionally parsed by
`dateutil` when the tool is available (a parse failure propagates). -/
def get_dates_from_filesystem (du : List Char → Except Unit Int)
    (st : FsTimes) (getFileInfoAvail : Bool) (creationOut : List Char) :
    Except Unit (List (String × Option Int)) := do
  let base := [("File Accessed", some st.atime),
    ("File Modified", some st.mtime), ("File Changed", some st.ctime)]
  if getFileInfoAvail then
    let c ← du creationOut
    pure (base ++ [("File Created", some c)])
  else
    pure base

def containsSub (pat : List Char) : List Char → Bool
  | [] => pat.isEmpty
  | c :: rest => pat.isPrefixOf (c :: rest) || containsSub pat rest

/-- The `(?i:date|time)` filter on attribute names. -/
def nameHasDateOrTime (name : List Char) : Bool :=
  containsSub ("date".toList) (name.map Char.toLower)
    || containsSub ("time".toList) (name.map Char.toLower)

/-- One extended attribute: its name and its value, `none` when the value is
not decodable as text (the caught `UnicodeDecodeError` case). -/
def xattrGo (du : List Char → Except Unit Int) (now : Int) :
    List (List Char × Option (List Char)) →
    Except Unit (List (String × Option Int))
  | [] => .ok []
  | (name, val) :: rest => do
    let entry ←
      if nameHasDateOrTime name then
        match val with
        | some v => do
          let r ← parse_date_from_text du now v
          match r with
          | some d => pure [("Xattr " ++ String.mk name, some d)]
          | none => pure ([] : List (String × Option Int))
        | none => pure []
      else
        pure []
    let rest' ← xattrGo du now rest
    pure (entry ++ rest')

/-- Model of `get_dates_from_xattr` (source lines 232–247). -/
def get_dates_from_xattr (du : List Char → Except Unit Int) (now : Int)
    (xattrAvail : Bool) (xattrs : List (List Char × Option (List Char))) :
    Except Unit (List (String × Option Int)) :=
  if xattrAvail then xattrGo du now xattrs else .ok []

structure MediaStream where
  codecType : List Char
  index : Nat
  creation : Option (List Char)

/-- The ffprobe JSON: `formatCreation` is `some` exactly when the `format`
object is present with a truthy `creation_time`. -/
structure MediaMetadata where
  formatCreation : Option (List Char)
  streams : List MediaStream

/-- `str.capitalize`: first character upper-cased, the rest lower-cased. -/
def capitalizeList : List Char → List Char
  | [] => []
  | c :: rest => c.toUpper :: rest.map Char.toLower

def streamLabel (s : MediaStream) : String :=
  String.mk (capitalizeList s.codecType) ++ " Stream " ++ toString s.index
    ++ " Created"

def mediaStreamsGo (du : List Char → Except Unit Int) :
    List MediaStream → Except Unit (List (String × Option Int))
  | [] => .ok []
  | s :: rest => do
    let e ← match s.creation with
      | some c => do
        let v ← du c
        pure [(streamLabel s, some v)]
      | none => pure ([] : List (String × Option Int))
    let r ← mediaStreamsGo du rest
    pure (e ++ r)

/-- Model of `get_dates_from_media` (source lines 250–272): nothing when
`ffprobe` is absent; otherwise the probe result (whose failure models the
uncaught `json.loads` raise), then format and per-stream creation times;
`dateutil` failures on them propagate uncaught. -/
def get_dates_from_media (du : List Char → Except Unit Int)
    (ffprobeAvail : Bool) (probe : Except Unit MediaMetadata) :
    Except Unit (List (String × Option Int)) :=
  if ffprobeAvail then do
    let md ← probe
    let fe ← match md.formatCreation with
      | some c => do
        let v ← du c
        pure [(("Media Format Created" : String), some v)]
      | none => pure ([] : List (String × Option Int))
    let se ← mediaStreamsGo du md.streams
    pure (fe ++ se)
  else
    .ok []

/-- The image tags the exif extractor reads; `none` models an absent or
falsy tag (and `gpsTimeStamp` is modelled as text so that the string join is
total). -/
structure ExifData where
  dateTime : Option (List Char)
  dateTimeOriginal : Option (List Char)
  dateTimeDigitized : Option (List Char)
  previewDateTime : Option (List Char)
  gpsDateStamp : Option (List Char)
  gpsTimeStamp : Option (List Char)

/-- One exif tag: unlike every other extractor, the parse result is stored
unconditionally — `dates[...] = parse_date_from_text(d)` with no `None`
check (source lines 286–288 and 296–299). -/
def exifEntry (du : List Char → Except Unit Int) (now : Int) (label : String)
    (d : Option (List Char)) : Except Unit (List (String × Option Int)) :=
  match d with
  | some txt => do
    let v ← parse_date_from_text du now txt
    pure [(label, v)]
  | none => pure []

/-- Model of `get_dates_from_exif` (source lines 275–307): `none` input is
the `UnidentifiedImageError` case (no evidence, no error). -/
def get_dates_from_exif (du : List Char → Except Unit Int) (now : Int)
    (img : Option ExifData) : Except Unit (List (String × Option Int)) :=
  match img with
  | none => .ok []
  | some e => do
    let e1 ← exifEntry du now "Exif DateTime" e.dateTime
    let e2 ← exifEntry du now "Exif DateTimeOriginal" e.dateTimeOriginal
    let e3 ← exifEntry du now "Exif DateTimeDigitized" e.dateTimeDigitized
    let e4 ← exifEntry du now "Exif PreviewDateTime" e.previewDateTime
    let e5 ← match e.gpsDateStamp with
      | some d => do
        let v ← parse_date_from_text du now (d ++ ' ' :: e.gpsTimeStamp.getD [])
        pure [(("Exif GPSDateStamp" : String), v)]
      | none => pure ([] : List (String × Option Int))
    pure (e1 ++ e2 ++ e3 ++ e4 ++ e5)

/-- Python `dict.update` on association lists: an existing label is
overwritten in place, a new label is appended. -/
def dictUpdate (m : List (String × Option Int))
    (adds : List (String × Option Int)) : List (String × Option Int) :=
  adds.foldl (fun acc kv =>
    if acc.any (fun p => p.1 = kv.1) then
      acc.map (fun p => if p.1 = kv.1 then kv else p)
    else
      acc ++ [kv]) m

/-- Model of `FileDateInfo.dates` (source lines 50–58): the five extractors
run in sequence with no exception handling, their mappings merged by
`dict.update`. -/
def fileDates (du : List Char → Except Unit Int) (now : Int)
    (stem folder : List Char) (st : FsTimes) (gfiAvail : Bool)
    (creationOut : List Char) (xattrAvail : Bool)
    (xattrs : List (List Char × Option (List Char))) (ffprobeAvail : Bool)
    (probe : Except Unit MediaMetadata) (img : Option ExifData) :
    Except Unit (List (String × Option Int)) := do
  let d1 ← get_dates_from_filename du now stem folder
  let d2 ← get_dates_from_filesystem du st gfiAvail creationOut
  let d3 ← get_dates_from_xattr du now xattrAvail xattrs
  let d4 ← get_dates_from_media du ffprobeAvail probe
  let d5 ← get_dates_from_exif du now img
  pure (dictUpdate (dictUpdate (dictUpdate (dictUpdate (dictUpdate [] d1)
    d2) d3) d4) d5)

lemma except_bind_ok {α β : Type} {p : Except Unit α} {f : α → Except Unit β}
    {b : β} (h : p >>= f = .ok b) : ∃ a, p = .ok a ∧ f a = .ok b := by
  cases p with
  | error e => exact Except.noConfusion h
  | ok a => exact ⟨a, rfl, h⟩

/-- A string matched by neither regex of `parse_date_from_text` yields
`None`, independently of the `dateutil` behaviour. -/
lemma parse_text_no_match (text : List Char)
    (h1 : structSearch text true = none)
    (h2 : fuzzySearch text false = none) :
    ∀ (du : List Char → Except Unit Int) (now : Int),
      parse_date_from_text du now text = .ok none := by
  intro du now
  unfold parse_date_from_text
  rw [h1]
  unfold textFallback
  rw [h2]

/-- The filename extractor inserts only actual dates (it checks
`if date is not None`). -/
lemma filenameEntries_values {du : List Char → Except Unit Int} {now : Int}
    {nt : String} {name : List Char} {entries : List (String × Option Int)}
    (h : filenameEntries du now nt name = .ok entries) :
    ∀ kv ∈ entries, ∃ d, kv.2 = some d := by
  unfold filenameEntries at h
  obtain ⟨r, hp, hrest⟩ := except_bind_ok h
  have hent := Except.ok.inj hrest
  intro kv hkv
  rw [← hent] at hkv
  rcases List.mem_append.mp hkv with hkv12 | hkv3
  · rcases List.mem_append.mp hkv12 with hkv1 | hkv2
    · rcases hts : parse_date_from_timestamp name with - | d <;>
        rw [hts] at hkv1
      · simp at hkv1
      · simp only [List.mem_singleton] at hkv1
        exact ⟨d, by rw [hkv1]⟩
    · rcases huu : parse_date_from_uuid name with - | d <;> rw [huu] at hkv2
      · simp at hkv2
      · simp only [List.mem_singleton] at hkv2
        exact ⟨d, by rw [hkv2]⟩
  · rcases r with - | d
    · simp at hkv3
    · simp only [List.mem_singleton] at hkv3
      exact ⟨d, by rw [hkv3]⟩

/-- C5 (code bug): the exif extractor, alone among the extractors, stores
the raw result of `parse_date_from_text` with no `None` check: an image
whose `DateTime` tag is the common broken value `"0000:00:00 00:00:00"`
produces the entry `("Exif DateTime", None)` in the evidence mapping (which
also breaks the value-sorted display).  The filename extractor, by
contrast, stores only actual dates. -/
theorem exif_stores_none_value :
    (∀ du now, get_dates_from_exif du now
        (some ⟨some ("0000:00:00 00:00:00".toList), none, none, none, none,
          none⟩) = .ok [("Exif DateTime", none)])
    ∧ (∀ du now stem folder entries,
        get_dates_from_filename du now stem folder = .ok entries →
        ∀ kv ∈ entries, ∃ d, kv.2 = some d) := by
  constructor
  · intro du now
    have hp := parse_text_no_match ("0000:00:00 00:00:00".toList)
      (by decide) (by decide) du now
    simp only [get_dates_from_exif, exifEntry, hp]
    rfl
  · intro du now stem folder entries h kv hkv
    unfold get_dates_from_filename at h
    obtain ⟨a, ha, h'⟩ := except_bind_ok h
    obtain ⟨b, hb, h''⟩ := except_bind_ok h'
    have hent := Except.ok.inj h''
    rw [← hent] at hkv
    rcases List.mem_append.mp hkv with hka | hkb
    · exact filenameEntries_values ha kv hka
    · exact filenameEntries_values hb kv hkb

theorem exif_stores_none_value_witness :
    ∃ d, ((("Timestamp in Filename" : String),
      some (1753386545000000 : Int)) : String × Option Int).2 = some d :=
  exif_stores_none_value.2 (fun _ => Except.ok 0) 0
    ("x 1753386545 y".toList) ("b".toList)
    [(("Timestamp in Filename" : String), some (1753386545000000 : Int))]
    (by rfl) (("Timestamp in Filename" : String),
      some (1753386545000000 : Int)) (by decide)

/-- C4 counterexample: with `ffprobe` present but producing unparseable
output (the uncaught `json.loads` raise), `FileDateInfo.dates` propagates
the error: no merged mapping is produced at all, even though the exif
extractor on its own would have produced an entry. -/
theorem extractor_abort_counterexample :
    get_dates_from_exif (fun _ => Except.error ()) 0
        (some ⟨some ("2025:07:24 19:49:05".toList), none, none, none, none,
          none⟩)
      = .ok [("Exif DateTime", some (utc 2025 7 24 19 49 5 0))]
    ∧ fileDates (fun _ => Except.error ()) 0 ("a".toList) ("b".toList)
        ⟨1, 2, 3⟩ false [] false [] true (Except.error ())
        (some ⟨some ("2025:07:24 19:49:05".toList), none, none, none, none,
          none⟩)
      = .error () := by
  constructor
  · rfl
  · rfl

/-- C4 (amended): an uncaught error in one extractor aborts the rest — with
the first three extractors succeeding and the media probe raising, the
merged mapping is not produced; but a file for which every optional host
tool is absent (and which is not an image) yields exactly the
filesystem-derived evidence, without raising. -/
theorem extractor_error_propagation :
    (∀ du now (stem folder : List Char) st gfi (cr : List Char) xa xs img
        a b c,
        get_dates_from_filename du now stem folder = .ok a →
        get_dates_from_filesystem du st gfi cr = .ok b →
        get_dates_from_xattr du now xa xs = .ok c →
        fileDates du now stem folder st gfi cr xa xs true (.error ()) img
          = .error ())
    ∧ (∀ du now st,
        fileDates du now ("a".toList) ("b".toList) st false [] false []
          false (.error ()) none
          = .ok [("File Accessed", some st.atime),
              ("File Modified", some st.mtime),
              ("File Changed", some st.ctime)]) := by
  constructor
  · intro du now stem folder st gfi cr xa xs img a b c ha hb hc
    unfold fileDates
    rw [ha, hb, hc]
    rfl
  · intro du now st
    have h1 : get_dates_from_filename du now ("a".toList) ("b".toList)
        = .ok [] := by
      unfold get_dates_from_filename filenameEntries
      rw [show parse_date_from_timestamp ("a".toList) = none from by decide,
        show parse_date_from_uuid ("a".toList) = none from by decide,
        show parse_date_from_timestamp ("b".toList) = none from by decide,
        show parse_date_from_uuid ("b".toList) = none from by decide,
        parse_text_no_match ("a".toList) (by decide) (by decide) du now,
        parse_text_no_match ("b".toList) (by decide) (by decide) du now]
      rfl
    unfold fileDates
    rw [h1]
    rfl

theorem extractor_error_propagation_witness :
    fileDates (fun _ => Except.ok 0) 0 ("a".toList) ("b".toList) ⟨1, 2, 3⟩
      false [] false [] true (Except.error ()) none = .error () :=
  extractor_error_propagation.1 (fun _ => Except.ok 0) 0 ("a".toList)
    ("b".toList) ⟨1, 2, 3⟩ false [] false [] none []
    [("File Accessed", some 1), ("File Modified", some 2),
      ("File Changed", some 3)] []
    (by rfl) (by rfl) (by rfl)

/-! ## The mtime rewrite action (source lines 64–69, 220–229, 350–355) -/

/-- The values of the merged evidence mapping: the non-filesystem evidence
(`pre` before, `post` after, per the extractor order) is fixed across runs;
the filesystem evidence is read from the current file state. -/
def fsEvidence (pre post : List (Option Int)) (st : FsTimes) :
    List (Option Int) :=
  pre ++ [some st.atime, some st.mtime, some st.ctime] ++ post

/-- One `--rewrite-mtime` pass over a file: compare the selected date with
the recorded `'File Modified'` evidence; on a difference, `os.utime` writes
mtime to the selection (re-writing atime to its recorded value) and the
inode change time becomes the wall clock `nowWall`.  An absent selection
reaches `set_filesystem_times` as `mtime=None`, which performs no write.
The returned `Bool` reports whether a filesystem write happened. -/
def rewrite_mtime_step (now nowWall : Int) (pre post : List (Option Int))
    (st : FsTimes) : FsTimes × Bool :=
  match min_valid_date now (fsEvidence pre post st) with
  | some t =>
    if t ≠ st.mtime then
      ({ atime := st.atime, mtime := t, ctime := nowWall }, true)
    else
      (st, false)
  | none => (st, false)

/-- C9 counterexample: evidence `{Date in Filename: 2025-01-01T00:30:00,
Timestamp in Filename: 2025-01-01T00:30:30.5}` with mtime
2025-01-01T00:00:00.  The first run selects 00:30:00 (day-granularity
override) and writes it to mtime; the second run, now seeing `File
Modified = 00:30:00`, has the sub-second override in range
(00:30:30.5 − 00:30:00 < 1 min), selects 00:30:30.5 and writes again. -/
theorem rewrite_second_write_counterexample :
    ((rewrite_mtime_step (utc 2025 6 1 0 0 0 0) (utc 2025 6 1 0 0 0 0)
        [some (utc 2025 1 1 0 30 0 0), some (utc 2025 1 1 0 30 30 500000)] []
        ⟨utc 2025 6 1 0 0 0 0, utc 2025 1 1 0 0 0 0,
          utc 2025 6 1 0 0 0 0⟩).2 = true)
    ∧ ((rewrite_mtime_step (utc 2025 6 1 0 0 0 0) (utc 2025 6 1 0 0 0 0)
        [some (utc 2025 1 1 0 30 0 0), some (utc 2025 1 1 0 30 30 500000)] []
        ((rewrite_mtime_step (utc 2025 6 1 0 0 0 0) (utc 2025 6 1 0 0 0 0)
          [some (utc 2025 1 1 0 30 0 0), some (utc 2025 1 1 0 30 30 500000)]
          [] ⟨utc 2025 6 1 0 0 0 0, utc 2025 1 1 0 0 0 0,
            utc 2025 6 1 0 0 0 0⟩).1)).2 = true)
    ∧ ((rewrite_mtime_step (utc 2025 6 1 0 0 0 0) (utc 2025 6 1 0 0 0 0)
        [some (utc 2025 1 1 0 30 0 0), some (utc 2025 1 1 0 30 30 500000)] []
        ⟨utc 2025 6 1 0 0 0 0, utc 2025 1 1 0 0 0 0,
          utc 2025 6 1 0 0 0 0⟩).1.mtime = utc 2025 1 1 0 30 0 0) := by
  refine ⟨by decide, by decide, by decide⟩

/-- C9 (amended): the rewrite writes exactly when a selected date exists and
differs from the recorded `'File Modified'` evidence; when they agree, or no
plausible date exists, nothing is written and the state is unchanged.
Consequently a second run writes again exactly when the selection recomputed
over the updated evidence differs from the first selected date — which the
counterexample shows can happen, so running twice is not always
write-free. -/
theorem rewrite_mtime_guard (now nowWall : Int)
    (pre post : List (Option Int)) (st : FsTimes) :
    ((rewrite_mtime_step now nowWall pre post st).2 = true ↔
      ∃ t, min_valid_date now (fsEvidence pre post st) = some t
        ∧ t ≠ st.mtime)
    ∧ (∀ t, min_valid_date now (fsEvidence pre post st) = some t →
        t ≠ st.mtime →
        rewrite_mtime_step now nowWall pre post st
          = ({ atime := st.atime, mtime := t, ctime := nowWall }, true))
    ∧ (min_valid_date now (fsEvidence pre post st) = some st.mtime →
        rewrite_mtime_step now nowWall pre post st = (st, false))
    ∧ (min_valid_date now (fsEvidence pre post st) = none →
        rewrite_mtime_step now nowWall pre post st = (st, false)) := by
  refine ⟨?_, ?_, ?_, ?_⟩
  · constructor
    · intro h
      unfold rewrite_mtime_step at h
      rcases hm : min_valid_date now (fsEvidence pre post st) with - | t <;>
        rw [hm] at h
      · simp at h
      · have h2 : (if t ≠ st.mtime then
            ({ atime := st.atime, mtime := t, ctime := nowWall }, true)
          else (st, false)).2 = true := h
        by_cases ht : t = st.mtime
        · rw [if_neg (fun hne => hne ht)] at h2
          exact absurd h2 (by simp)
        · exact ⟨t, rfl, ht⟩
    · rintro ⟨t, hm, ht⟩
      unfold rewrite_mtime_step
      rw [hm]
      show (if t ≠ st.mtime then
          ({ atime := st.atime, mtime := t, ctime := nowWall }, true)
        else (st, false)).2 = true
      rw [if_pos ht]
  · intro t hm ht
    unfold rewrite_mtime_step
    rw [hm]
    show (if t ≠ st.mtime then
        ({ atime := st.atime, mtime := t, ctime := nowWall }, true)
      else (st, false))
        = ({ atime := st.atime, mtime := t, ctime := nowWall }, true)
    rw [if_pos ht]
  · intro hm
    unfold rewrite_mtime_step
    rw [hm]
    show (if st.mtime ≠ st.mtime then
        ({ atime := st.atime, mtime := st.mtime, ctime := nowWall }, true)
      else (st, false)) = (st, false)
    rw [if_neg (fun hne => hne rfl)]
  · intro hm
    unfold rewrite_mtime_step
    rw [hm]

theorem rewrite_mtime_guard_witness :
    rewrite_mtime_step (utc 2025 6 1 0 0 0 0) (utc 2025 6 1 0 0 0 0) [] []
        ⟨utc 2025 6 1 0 0 0 0, utc 2025 1 1 0 0 0 0, utc 2025 6 1 0 0 0 0⟩
      = (⟨utc 2025 6 1 0 0 0 0, utc 2025 1 1 0 0 0 0,
          utc 2025 6 1 0 0 0 0⟩, false) :=
  (rewrite_mtime_guard (utc 2025 6 1 0 0 0 0) (utc 2025 6 1 0 0 0 0) [] []
    ⟨utc 2025 6 1 0 0 0 0, utc 2025 1 1 0 0 0 0,
      utc 2025 6 1 0 0 0 0⟩).2.2.1 (by decide)

end DateScraper
